import Mathlib

/-!
Verification development for the genart CLI video pipeline.

Shallow embedding of:
* `src/video/interpolate.ts` — `parseAnimate`, `EASINGS`, `interpolateParams`
  (strings embedded as `List Char`, JS numbers as `ℚ`);
* `src/video/ffmpeg.ts` — `findFfmpeg`, `qualityToCrf`, `resolveCodec`,
  `buildFfmpegArgs`;
* the `video` command (`videoCommand` action) — frame-count computation,
  per-frame time values, the chunked parallel capture loop, the writes to the
  encoder's stdin, and the abort/exit paths, modelled as a deterministic
  function of an environment that fixes the outcome of every external effect
  (env var, `which`, per-frame capture, encoder exit code) plus an arbitrary
  intra-chunk completion order for the parallel captures.
-/

namespace GenartVideo

/-! ## JS string/number primitives used by interpolate.ts -/

/-- JS whitespace (the subset relevant to numeric-string trimming). -/
def isWs (c : Char) : Bool := c = ' ' || c = '\t' || c = '\n' || c = '\r'

/-- Trim leading and trailing whitespace, as JS does before numeric coercion. -/
def trimWs (s : List Char) : List Char :=
  ((s.dropWhile isWs).reverse.dropWhile isWs).reverse

/-- Decimal digit test. -/
def isDigitCh (c : Char) : Bool := '0' ≤ c && c ≤ '9'

/-- Value of a decimal digit string (characters assumed to be digits). -/
def digitsVal (l : List Char) : ℕ :=
  l.foldl (fun a c => 10 * a + (c.toNat - 48)) 0

/-- Parse a nonempty all-digit string. -/
def parseNatDigits (l : List Char) : Option ℕ :=
  if l ≠ [] ∧ l.all isDigitCh then some (digitsVal l) else none

/-- Parse an optionally signed nonempty digit string (an exponent). -/
def parseSignedInt : List Char → Option ℤ
  | '+' :: rest => (parseNatDigits rest).map (fun n => (n : ℤ))
  | '-' :: rest => (parseNatDigits rest).map (fun n => -(n : ℤ))
  | rest => (parseNatDigits rest).map (fun n => (n : ℤ))

/-- JS `String.prototype.split` with a single-character separator,
on `List Char`. `splitOnChar c [] = [[]]`, like `"".split(c) = [""]`. -/
def splitOnChar (sep : Char) : List Char → List (List Char)
  | [] => [[]]
  | c :: rest =>
    if c = sep then [] :: splitOnChar sep rest
    else
      match splitOnChar sep rest with
      | [] => [[c]]
      | h :: t => (c :: h) :: t

/-- Mantissa of a decimal literal: `digits`, `digits.digits`, `digits.`,
or `.digits` (at least one digit overall). -/
def parseMantissa (l : List Char) : Option ℚ :=
  match splitOnChar '.' l with
  | [ip] => if ip ≠ [] ∧ ip.all isDigitCh then some (digitsVal ip) else none
  | [ip, fp] =>
    if (ip ++ fp) ≠ [] ∧ ip.all isDigitCh ∧ fp.all isDigitCh then
      some (mkRat (digitsVal ip * 10 ^ fp.length + digitsVal fp)
        (10 ^ fp.length))
    else none
  | _ => none

/-- The rational `10 ^ e` for an integer exponent (kernel-reducible form). -/
def tenPow (e : ℤ) : ℚ :=
  if 0 ≤ e then ((10 ^ e.toNat : ℕ) : ℚ) else ((10 ^ (-e).toNat : ℕ) : ℚ)⁻¹

/-- Unsigned decimal literal with optional exponent part. -/
def parseDec (l : List Char) : Option ℚ :=
  match l.span (fun c => !(c = 'e' || c = 'E')) with
  | (mant, []) => parseMantissa mant
  | (mant, _ :: expPart) =>
    match parseMantissa mant, parseSignedInt expPart with
    | some m, some e => some (m * tenPow e)
    | _, _ => none

/-- Hex digit value. -/
def hexVal (c : Char) : Option ℕ :=
  if '0' ≤ c ∧ c ≤ '9' then some (c.toNat - 48)
  else if 'a' ≤ c ∧ c ≤ 'f' then some (c.toNat - 87)
  else if 'A' ≤ c ∧ c ≤ 'F' then some (c.toNat - 55)
  else none

/-- Binary digit value. -/
def binVal (c : Char) : Option ℕ :=
  if c = '0' then some 0 else if c = '1' then some 1 else none

/-- Octal digit value. -/
def octVal (c : Char) : Option ℕ :=
  if '0' ≤ c ∧ c ≤ '7' then some (c.toNat - 48) else none

/-- Nonempty string of digits in a given base. -/
def parseRadix (base : ℕ) (val : Char → Option ℕ) (l : List Char) : Option ℚ :=
  if l ≠ [] ∧ l.all (fun c => (val c).isSome) then
    some ((l.foldl (fun a c => base * a + (val c).getD 0) 0 : ℕ) : ℚ)
  else none

/-- Body of a JS numeric string after trimming (sign, decimal, or radix
prefix). A leading sign excludes a radix prefix, as in JS. -/
def jsNumberBody : List Char → Option ℚ
  | '+' :: rest => parseDec rest
  | '-' :: rest => (parseDec rest).map Neg.neg
  | '0' :: 'x' :: rest => parseRadix 16 hexVal rest
  | '0' :: 'X' :: rest => parseRadix 16 hexVal rest
  | '0' :: 'b' :: rest => parseRadix 2 binVal rest
  | '0' :: 'B' :: rest => parseRadix 2 binVal rest
  | '0' :: 'o' :: rest => parseRadix 8 octVal rest
  | '0' :: 'O' :: rest => parseRadix 8 octVal rest
  | l => parseDec l

/-- JS `Number(string)` coercion on finite numeric strings: trims whitespace,
maps the empty string to `0`, otherwise parses a decimal or radix-prefixed
literal; `none` models `NaN`. (The non-finite values `Infinity`/`-Infinity`
lie outside the embedded numeric domain `ℚ` and are modelled as `none`.) -/
def jsNumber (s : List Char) : Option ℚ :=
  let t := trimWs s
  if t = [] then some 0 else jsNumberBody t

/-- JS `String.prototype.indexOf` for a single character: `-1` when absent. -/
def indexOfChar (c : Char) : List Char → ℤ
  | [] => -1
  | a :: rest =>
    if a = c then 0
    else
      let r := indexOfChar c rest
      if r < 0 then -1 else r + 1

/-! ## interpolate.ts -/

/-- A single parameter animation specification (`AnimateSpec`). -/
structure AnimateSpec where
  key : List Char
  start : ℚ
  «end» : ℚ
  deriving DecidableEq, Repr

/-- `parseAnimate`: parse an `--animate` flag value `"param=start:end"`. -/
def parseAnimate (value : List Char) : Except String AnimateSpec :=
  let eqIdx := indexOfChar '=' value
  if eqIdx < 1 then
    .error "Invalid --animate format. Expected param=start:end"
  else
    let key := value.take eqIdx.toNat
    let range := value.drop (eqIdx.toNat + 1)
    let parts := splitOnChar ':' range
    if parts.length ≠ 2 then
      .error "Invalid --animate range. Expected param=start:end"
    else
      match jsNumber (parts.getD 0 []), jsNumber (parts.getD 1 []) with
      | some s, some e => .ok ⟨key, s, e⟩
      | _, _ => .error "Invalid --animate values. Start and end must be numbers"

/-- The easing registry `EASINGS` (record embedded as an association list). -/
def EASINGS : List (String × (ℚ → ℚ)) :=
  [("linear", fun t => t),
   ("ease-in", fun t => t * t),
   ("ease-out", fun t => t * (2 - t)),
   ("ease-in-out", fun t => if t < 1/2 then 2 * t * t else -1 + (4 - 2 * t) * t)]

/-- `interpolateParams`: interpolate animated parameters at normalized time
`t`, clamped into `[0,1]` before easing. The result record is embedded as a
finite map `List Char → Option ℚ`; later specs overwrite earlier ones
(last write wins), as JS property assignment does. -/
def interpolateParams (specs : List AnimateSpec) (t : ℚ) (easing : ℚ → ℚ) :
    List Char → Option ℚ :=
  let easedT := easing (max 0 (min 1 t))
  specs.foldl
    (fun result spec => fun k =>
      if k = spec.key then some (spec.start + (spec.«end» - spec.start) * easedT)
      else result k)
    (fun _ => none)

/-- The record sending each animated key to that spec's `start`
(last write wins), i.e. the spec-level description of
`interpolateParams specs 0 easing`. -/
def startsMap (specs : List AnimateSpec) : List Char → Option ℚ :=
  specs.foldl
    (fun result spec => fun k =>
      if k = spec.key then some spec.start else result k)
    (fun _ => none)

/-- The record sending each animated key to that spec's `end`
(last write wins). -/
def endsMap (specs : List AnimateSpec) : List Char → Option ℚ :=
  specs.foldl
    (fun result spec => fun k =>
      if k = spec.key then some spec.«end» else result k)
    (fun _ => none)

/-! ## ffmpeg.ts -/

/-- JS `Math.round`: round half toward positive infinity. -/
def jsRound (q : ℚ) : ℤ := ⌊q + 1/2⌋

/-- `qualityToCrf`: convert a quality value (0–100) to a CRF value for the
given (already resolved) codec identifier. -/
def qualityToCrf (quality : ℚ) (codec : String) : ℤ :=
  let maxCrf : ℚ := if codec = "libvpx-vp9" then 63 else 51
  jsRound ((100 - quality) * maxCrf / 100)

/-- `resolveCodec`: map a user-facing codec name to an ffmpeg codec
identifier; unknown names pass through verbatim. -/
def resolveCodec (codec : String) : String :=
  if codec = "h264" then "libx264"
  else if codec = "h265" then "libx265"
  else if codec = "vp9" then "libvpx-vp9"
  else codec

/-- Output formats accepted by the video command. -/
inductive VideoFormat | mp4 | webm | gif
  deriving DecidableEq, Repr

/-- `FfmpegOptions` (numeric fields that are only ever stringified are
embedded at the integer types the CLI produces for them). -/
structure FfmpegOptions where
  output : String
  width : ℕ
  height : ℕ
  fps : ℕ
  format : VideoFormat
  codec : String
  quality : ℚ
  loop : ℕ
  deriving Repr

/-- `buildFfmpegArgs`: build the ffmpeg argv for encoding piped PNG frames.
(The source guards the loop flag with `opts.loop !== undefined`, which is
always true for the typed `number` field, so the flag is always pushed.) -/
def buildFfmpegArgs (opts : FfmpegOptions) : List String :=
  let args : List String :=
    ["-f", "image2pipe", "-framerate", toString opts.fps, "-i", "pipe:0", "-y"]
  if opts.format = .gif then
    args ++ ["-vf", "fps=" ++ toString opts.fps, "-loop", toString opts.loop]
      ++ [opts.output]
  else
    let ffCodec := resolveCodec opts.codec
    let crf := qualityToCrf opts.quality ffCodec
    args ++ ["-c:v", ffCodec, "-crf", toString crf]
      ++ (if ffCodec = "libx264" ∨ ffCodec = "libx265" then
            ["-pix_fmt", "yuv420p"] else [])
      ++ (if ffCodec = "libx264" then ["-movflags", "+faststart"] else [])
      ++ [opts.output]

/-- The literal flag tokens `buildFfmpegArgs` can emit. Used to hypothesise
that free-form fields (output path, codec name, stringified numbers) do not
collide with a flag token — true of every real invocation. -/
def ffmpegFlagTokens : List String :=
  ["-f", "image2pipe", "-framerate", "-i", "pipe:0", "-y", "-vf", "-loop",
   "-c:v", "-crf", "-pix_fmt", "yuv420p", "-movflags", "+faststart"]

/-- The error message thrown by `findFfmpeg` when no binary resolves. -/
def ffmpegNotFoundMsg : String :=
  "ffmpeg not found. Install ffmpeg or set GENART_FFMPEG_PATH.\n" ++
    "  macOS: brew install ffmpeg\n" ++
    "  Linux: sudo apt install ffmpeg\n" ++
    "  Or: GENART_FFMPEG_PATH=/path/to/ffmpeg genart video ..."

/-- JS string trim on `String` (via the char-list trim). -/
def trimStr (s : String) : String := String.mk (trimWs s.data)

/-- `findFfmpeg`, as a function of the two external lookups it performs:
`envPath` is the value of `GENART_FFMPEG_PATH` (`none` = unset), and
`whichOut` is the stdout of `which ffmpeg` (`none` = `which` failed).
JS truthiness makes an empty-string env var fall through to `which`. -/
def findFfmpeg (envPath : Option String) (whichOut : Option String) :
    Except String String :=
  match envPath with
  | some p =>
    if p ≠ "" then .ok p
    else
      match whichOut with
      | some w => .ok (trimStr w)
      | none => .error ffmpegNotFoundMsg
  | none =>
    match whichOut with
    | some w => .ok (trimStr w)
    | none => .error ffmpegNotFoundMsg

/-! ## videoCommand: frame values, chunked capture loop, abort paths -/

/-- `normalizedTime` for a frame: `totalFrames <= 1 ? 0 : frameIdx / (totalFrames - 1)`. -/
def frameNormalizedTime (totalFrames : ℕ) (index : ℕ) : ℚ :=
  if totalFrames ≤ 1 then 0 else (index : ℚ) / ((totalFrames : ℚ) - 1)

/-- `timeOffsetMs` for a frame: `(frameIdx / fps) * 1000`. -/
def frameTimeOffsetMs (index : ℕ) (fps : ℚ) : ℚ := ((index : ℚ) / fps) * 1000

/-- `totalFrames = Math.ceil(duration * fps)` (no lower bound is applied). -/
def totalFramesZ (duration fps : ℚ) : ℤ := ⌈duration * fps⌉

/-- Replay a chunk's completion events: completion `j` stores `g j` into
slot `j` — position-in-chunk index, never completion order. -/
def fillSlots (g : ℕ → Option ℕ) (order : List ℕ) (init : List (Option ℕ)) :
    List (Option ℕ) :=
  order.foldl (fun slots j => slots.set j (g j)) init

/-- `Promise.all` over one chunk of frame captures: results land at their
position-in-chunk index under an arbitrary completion order `order`; the
chunk rejects iff some capture rejects. -/
def captureChunk (capture : ℕ → Except String ℕ) (idxs : List ℕ)
    (order : List ℕ) : Except String (List ℕ) :=
  if idxs.all (fun fi => (capture fi).isOk) then
    .ok ((fillSlots (fun j => (idxs.get? j).bind fun fi => (capture fi).toOption)
          order (List.replicate idxs.length none)).reduceOption)
  else .error "frame capture failed"

/-- The chunked capture-and-write loop of `videoCommand`
(`for (let i = 0; i < totalFrames; i += concurrency)`): returns the buffers
written to the encoder's stdin, in write order, and whether the loop ran to
completion (false = a capture rejected and aborted the pipeline). The source
loop never terminates when `concurrency = 0`; the model returns immediately
in that unreachable case. -/
def chunkLoop (capture : ℕ → Except String ℕ) (orders : ℕ → List ℕ)
    (totalFrames C : ℕ) : ℕ → List ℕ → List ℕ × Bool
  | i, acc =>
    if _h : i < totalFrames ∧ 0 < C then
      let chunkSize := min C (totalFrames - i)
      let idxs := (List.range chunkSize).map (i + ·)
      match captureChunk capture idxs (orders (i / C)) with
      | .ok bufs => chunkLoop capture orders totalFrames C (i + C) (acc ++ bufs)
      | .error _ => (acc, false)
    else (acc, true)
termination_by i _ => totalFrames - i
decreasing_by simp_wf; omega

/-- The chunk partition of the frame timeline the loop walks. -/
def chunkPartition (totalFrames C : ℕ) : ℕ → List (List ℕ)
  | i =>
    if _h : i < totalFrames ∧ 0 < C then
      ((List.range (min C (totalFrames - i))).map (i + ·))
        :: chunkPartition totalFrames C (i + C)
    else []
termination_by i => totalFrames - i
decreasing_by simp_wf; omega

/-- Environment fixing every external effect of one `videoCommand` run. -/
structure VideoEnv where
  /-- `sketch.renderer.type` of the loaded sketch. -/
  rendererType : String
  /-- `GENART_FFMPEG_PATH` (`none` = unset). -/
  envFfmpegPath : Option String
  /-- stdout of `which ffmpeg` (`none` = lookup failed). -/
  whichOut : Option String
  /-- raw `--animate` flag values. -/
  animate : List (List Char)
  /-- `--easing` flag value. -/
  easingName : String
  /-- `--duration` value. -/
  duration : ℚ
  /-- `--fps` value. -/
  fps : ℚ
  /-- `--concurrency` value. -/
  concurrency : ℕ
  /-- outcome of capturing frame `i` (screenshot buffer, abstracted to `ℕ`). -/
  capture : ℕ → Except String ℕ
  /-- per-chunk completion order of the parallel captures. -/
  completionOrders : ℕ → List ℕ
  /-- ffmpeg's exit code (`code ?? 0`). -/
  encoderExitCode : ℤ

/-- Observable outcome of one `videoCommand` run. -/
structure RunResult where
  /-- process exit code (0 success, 1 failure). -/
  exitCode : ℕ
  /-- buffers written to the encoder's stdin, in write order. -/
  framesWritten : List ℕ
  /-- the ffmpeg subprocess was spawned. -/
  spawned : Bool
  /-- `ffmpegProc.stdin.end()` was reached (end-of-stream signalled). -/
  stdinClosed : Bool
  /-- the ffmpeg exit code was awaited (the process had exited). -/
  awaitedExit : Bool
  /-- the browser was closed (`finally` block). -/
  browserClosed : Bool
  deriving DecidableEq, Repr

/-- Result of an error thrown before ffmpeg is spawned. -/
def earlyFailure : RunResult :=
  { exitCode := 1, framesWritten := [], spawned := false,
    stdinClosed := false, awaitedExit := false, browserClosed := true }

/-- The `videoCommand` action as a function of its environment: SVG-renderer
rejection, ffmpeg resolution, `--animate`/`--easing` parsing, frame count,
spawn, the chunked capture/write loop, stdin end, and the exit-code check —
in source order. A capture rejection propagates out of the `try` block: the
spawned encoder is neither killed nor has its stdin ended (only the browser
is closed in `finally`). -/
def runVideo (env : VideoEnv) : RunResult :=
  if env.rendererType = "svg" then earlyFailure
  else
    match findFfmpeg env.envFfmpegPath env.whichOut with
    | .error _ => earlyFailure
    | .ok _ =>
      if (env.animate.map parseAnimate).any (fun r => !r.isOk) then earlyFailure
      else if (EASINGS.lookup env.easingName).isNone then earlyFailure
      else
        let totalFrames := (totalFramesZ env.duration env.fps).toNat
        match chunkLoop env.capture env.completionOrders totalFrames
            env.concurrency 0 [] with
        | (written, false) =>
          { exitCode := 1, framesWritten := written, spawned := true,
            stdinClosed := false, awaitedExit := false, browserClosed := true }
        | (written, true) =>
          if env.encoderExitCode ≠ 0 then
            { exitCode := 1, framesWritten := written, spawned := true,
              stdinClosed := true, awaitedExit := true, browserClosed := true }
          else
            { exitCode := 0, framesWritten := written, spawned := true,
              stdinClosed := true, awaitedExit := true, browserClosed := true }

/-- The encoder subprocess was terminated or allowed to exit: it was never
spawned, or its input stream was closed (EOF lets it drain and exit), or its
exit was in fact awaited. Its negation on a spawned process is the orphan
state: still running with an open input stream. -/
def encoderReleased (r : RunResult) : Prop :=
  r.spawned = false ∨ r.stdinClosed = true ∨ r.awaitedExit = true

/-- A happy-path environment used to instantiate the theorems:
3 frames (duration 3 s at 1 fps), concurrency 2, every capture succeeds and
returns its frame index, each chunk completes in reverse order. -/
def baseEnv : VideoEnv where
  rendererType := "p5"
  envFfmpegPath := some "/usr/local/bin/ffmpeg"
  whichOut := none
  animate := []
  easingName := "linear"
  duration := 3
  fps := 1
  concurrency := 2
  capture := fun i => .ok i
  completionOrders := fun _ => [1, 0]
  encoderExitCode := 0

/-- Environment whose only deviation from the happy path is that every
frame capture fails. -/
def captureFailEnv : VideoEnv :=
  { baseEnv with capture := fun _ => .error "Protocol error: page crashed" }

/-- Environment with `--duration 0` (at 10 fps). -/
def zeroDurationEnv : VideoEnv :=
  { baseEnv with duration := 0, fps := 10 }

/-- Environment where `GENART_FFMPEG_PATH` is unset and `which ffmpeg`
fails. -/
def noFfmpegEnv : VideoEnv :=
  { baseEnv with envFfmpegPath := none, whichOut := none }

/-- Environment on the happy path up to an encoder that exits non-zero. -/
def encoderFailEnv : VideoEnv :=
  { baseEnv with encoderExitCode := 1 }

/-- A default-style mp4/h264 ffmpeg options record used to instantiate
theorems. -/
def mp4Opts : FfmpegOptions :=
  { output := "out.mp4", width := 640, height := 480, fps := 30,
    format := .mp4, codec := "h264", quality := 75, loop := 0 }

/-- The spec's failure condition for `parseAnimate`: no `=`, empty key,
a `:`-separated part count other than two, or a non-numeric endpoint
(where, in source terms, the key is what precedes the first `=` and the
parts are the `:`-split of what follows it). -/
def animateFailCond (v : List Char) : Prop :=
  '=' ∉ v ∨
  v.take (indexOfChar '=' v).toNat = [] ∨
  (splitOnChar ':' (v.drop ((indexOfChar '=' v).toNat + 1))).length ≠ 2 ∨
  ∃ p ∈ splitOnChar ':' (v.drop ((indexOfChar '=' v).toNat + 1)), jsNumber p = none

/-! ## Helper lemmas -/

theorem neg_one_le_indexOfChar (c : Char) (v : List Char) :
    -1 ≤ indexOfChar c v := by
  induction v with
  | nil => simp [indexOfChar]
  | cons a rest ih =>
    simp only [indexOfChar]
    split_ifs <;> omega

theorem indexOfChar_neg_iff (c : Char) (v : List Char) :
    indexOfChar c v < 0 ↔ c ∉ v := by
  induction v with
  | nil => simp [indexOfChar]
  | cons a rest ih =>
    simp only [indexOfChar, List.mem_cons]
    split_ifs with h1 h2
    · subst h1; simp
    · constructor
      · intro _ h
        rcases h with h | h
        · exact h1 h.symm
        · exact ih.mp h2 h
      · intro _; omega
    · have hc : c ∈ rest := not_not.mp fun hn => h2 (ih.mpr hn)
      constructor
      · intro h; omega
      · intro h; exact absurd (Or.inr hc) h

theorem indexOfChar_append_cons (c : Char) (key rest : List Char)
    (h : c ∉ key) : indexOfChar c (key ++ c :: rest) = key.length := by
  induction key with
  | nil => simp [indexOfChar]
  | cons a k ih =>
    have ha : a ≠ c := fun e => h (by simp [e])
    have h' : c ∉ k := fun hk => h (List.mem_cons_of_mem a hk)
    have hr : ¬ indexOfChar c (k ++ c :: rest) < 0 := by
      rw [ih h']; omega
    simp only [List.cons_append, indexOfChar, List.append_eq, if_neg ha,
      if_neg hr, ih h', List.length_cons]
    rw [if_neg (show ¬ (k.length : ℤ) < 0 by omega)]
    push_cast
    ring

theorem splitOnChar_of_not_mem (sep : Char) (s : List Char) (h : sep ∉ s) :
    splitOnChar sep s = [s] := by
  induction s with
  | nil => rfl
  | cons a rest ih =>
    have ha : a ≠ sep := fun e => h (by simp [e])
    have h' : sep ∉ rest := fun hk => h (List.mem_cons_of_mem a hk)
    simp only [splitOnChar, ha, if_false, ih h']

theorem splitOnChar_append_cons (sep : Char) (s t : List Char) (h : sep ∉ s) :
    splitOnChar sep (s ++ sep :: t) = s :: splitOnChar sep t := by
  induction s with
  | nil => simp [splitOnChar]
  | cons a rest ih =>
    have ha : a ≠ sep := fun e => h (by simp [e])
    have h' : sep ∉ rest := fun hk => h (List.mem_cons_of_mem a hk)
    simp only [List.cons_append, splitOnChar, if_neg ha, List.append_eq, ih h']

/-! ## C4: parseAnimate -/

/-- C4: `parseAnimate(value)` fails exactly when the input has no `=`, an
empty key, a `:`-part count other than two, or a non-numeric endpoint; and
for every well-formed `"key=start:end"` input it returns exactly that key,
start and end (the witness instantiates negative and fractional values). -/
theorem C4_parseAnimate (v key s e : List Char) (a b : ℚ)
    (hkey : key ≠ []) (hkeq : '=' ∉ key) (hs : ':' ∉ s) (he : ':' ∉ e)
    (ha : jsNumber s = some a) (hb : jsNumber e = some b) :
    ((parseAnimate v).isOk = false ↔ animateFailCond v) ∧
    parseAnimate (key ++ '=' :: (s ++ ':' :: e)) = .ok ⟨key, a, b⟩ := by
  constructor
  · simp only [parseAnimate, animateFailCond]
    by_cases h1 : indexOfChar '=' v < 1
    · have h0 := neg_one_le_indexOfChar '=' v
      rw [if_pos h1]
      refine iff_of_true rfl ?_
      rcases (by omega : indexOfChar '=' v = -1 ∨ indexOfChar '=' v = 0) with
        h | h
      · exact Or.inl ((indexOfChar_neg_iff '=' v).mp (by omega))
      · exact Or.inr (Or.inl (by simp [h]))
    · rw [if_neg h1]
      have hmem : '=' ∈ v := by
        by_contra hn
        exact h1 (by have := (indexOfChar_neg_iff '=' v).mpr hn; omega)
      have hknn : v.take (indexOfChar '=' v).toNat ≠ [] := by
        cases v with
        | nil => simp at hmem
        | cons x v' =>
          cases hn : (indexOfChar '=' (x :: v')).toNat with
          | zero => omega
          | succ m => simp [List.take_succ_cons]
      by_cases h2 :
          (splitOnChar ':' (v.drop ((indexOfChar '=' v).toNat + 1))).length ≠ 2
      · rw [if_pos h2]
        exact iff_of_true rfl (Or.inr (Or.inr (Or.inl h2)))
      · rw [if_neg h2]
        push_neg at h2
        obtain ⟨p0, p1, hp⟩ := List.length_eq_two.mp h2
        rw [hp]
        simp only [List.getD_cons_zero, List.getD_cons_succ]
        cases h0 : jsNumber p0 with
        | none =>
          cases h01 : jsNumber p1 with
          | none =>
            exact iff_of_true rfl (Or.inr (Or.inr (Or.inr ⟨p0, by simp, h0⟩)))
          | some q1 =>
            exact iff_of_true rfl (Or.inr (Or.inr (Or.inr ⟨p0, by simp, h0⟩)))
        | some q0 =>
          cases h01 : jsNumber p1 with
          | none =>
            exact iff_of_true rfl (Or.inr (Or.inr (Or.inr ⟨p1, by simp, h01⟩)))
          | some q1 =>
            constructor
            · intro habs
              simp [Except.isOk, Except.toBool] at habs
            · intro hcond
              rcases hcond with h | h | h | h
              · exact absurd hmem h
              · exact absurd h hknn
              · simp at h
              · obtain ⟨p, hpmem, hpnone⟩ := h
                simp only [List.mem_cons, List.not_mem_nil, or_false] at hpmem
                rcases hpmem with hpm | hpm
                · rw [hpm, h0] at hpnone
                  exact Option.noConfusion hpnone
                · rw [hpm, h01] at hpnone
                  exact Option.noConfusion hpnone
  · simp only [parseAnimate]
    have hidx : indexOfChar '=' (key ++ '=' :: (s ++ ':' :: e)) = key.length :=
      indexOfChar_append_cons '=' key (s ++ ':' :: e) hkeq
    have hlen : 1 ≤ key.length := by
      cases key with
      | nil => exact absurd rfl hkey
      | cons _ _ => simp
    rw [hidx]
    rw [if_neg (by omega)]
    have htake : (key ++ '=' :: (s ++ ':' :: e)).take (key.length : ℤ).toNat
        = key := by
      simp
    have hdrop : (key ++ '=' :: (s ++ ':' :: e)).drop ((key.length : ℤ).toNat + 1)
        = s ++ ':' :: e := by
      have : key ++ '=' :: (s ++ ':' :: e) = (key ++ ['=']) ++ (s ++ ':' :: e) := by
        simp
      rw [this]
      have hl : (key.length : ℤ).toNat + 1 = (key ++ ['=']).length := by
        simp
      rw [hl, List.drop_left]
    rw [htake, hdrop]
    rw [splitOnChar_append_cons ':' s e hs, splitOnChar_of_not_mem ':' e he]
    simp [ha, hb]

/-- C4 witness: a failing input (`"noeq"`, no `=`) and a successful
round-trip for `"a=-0.5:1.25"` with negative and fractional endpoints
(`-(mkRat 5 10) = -0.5` and `mkRat 125 100 = 1.25`). -/
theorem C4_parseAnimate_witness :
    ((parseAnimate "noeq".data).isOk = false ↔ animateFailCond "noeq".data) ∧
    parseAnimate ("a".data ++ '=' :: ("-0.5".data ++ ':' :: "1.25".data))
      = .ok ⟨"a".data, -(mkRat 5 10), mkRat 125 100⟩ ∧
    -(mkRat 5 10) = -(1/2 : ℚ) ∧ mkRat 125 100 = (5/4 : ℚ) := by
  have h := C4_parseAnimate "noeq".data "a".data "-0.5".data "1.25".data
    (-(mkRat 5 10)) (mkRat 125 100) (by decide) (by decide) (by decide)
    (by decide) rfl rfl
  exact ⟨h.1, h.2, by norm_num [Rat.mkRat_eq_div], by norm_num [Rat.mkRat_eq_div]⟩

/-! ## C6 and C10: quality mapping and codec resolution -/

/-- C6: `qualityToCrf` computes `round((100 − quality) × maxCrf / 100)` with
exactly two tiers — 63 for the `libvpx-vp9` codec identifier and 51 shared by
every other codec — and on the 51 tier quality 100, 0, 75, 50 map to CRF
0, 51, 13, 26. -/
theorem C6_qualityToCrf (q : ℚ) (codec : String) (h : codec ≠ "libvpx-vp9") :
    qualityToCrf q "libvpx-vp9" = jsRound ((100 - q) * 63 / 100) ∧
    qualityToCrf q codec = jsRound ((100 - q) * 51 / 100) ∧
    qualityToCrf 100 "libx264" = 0 ∧
    qualityToCrf 0 "libx264" = 51 ∧
    qualityToCrf 75 "libx264" = 13 ∧
    qualityToCrf 50 "libx264" = 26 := by
  refine ⟨by simp [qualityToCrf], by simp [qualityToCrf, h], ?_, ?_, ?_, ?_⟩ <;>
    · simp only [qualityToCrf, jsRound]
      rw [if_neg (by decide : ¬ ("libx264" = "libvpx-vp9"))]
      norm_num

/-- C6 witness: the 51 tier at `codec = "libx264"`, quality 75. -/
theorem C6_qualityToCrf_witness :
    qualityToCrf 75 "libvpx-vp9" = jsRound ((100 - 75) * 63 / 100) ∧
    qualityToCrf 75 "libx264" = jsRound ((100 - 75) * 51 / 100) ∧
    qualityToCrf 100 "libx264" = 0 ∧
    qualityToCrf 0 "libx264" = 51 ∧
    qualityToCrf 75 "libx264" = 13 ∧
    qualityToCrf 50 "libx264" = 26 :=
  C6_qualityToCrf 75 "libx264" (by decide)

/-- C10: a codec name outside the `h264`/`h265`/`vp9` mapping passes through
`resolveCodec` verbatim, is emitted verbatim as the `-c:v` argument for
non-GIF formats, and takes the 51 maxCrf tier unless the name is exactly
`"libvpx-vp9"`. -/
theorem C10_codec_passthrough (c : String) (opts : FfmpegOptions) (q : ℚ)
    (hc : c ∉ ["h264", "h265", "vp9"]) (hfmt : opts.format ≠ .gif)
    (hcodec : opts.codec = c) (hvp : c ≠ "libvpx-vp9") :
    resolveCodec c = c ∧
    (∃ pre suf, buildFfmpegArgs opts = pre ++ "-c:v" :: c :: suf) ∧
    qualityToCrf q c = jsRound ((100 - q) * 51 / 100) := by
  simp only [List.mem_cons, List.not_mem_nil, or_false, not_or] at hc
  have hres : resolveCodec c = c := by
    simp [resolveCodec, hc.1, hc.2.1, hc.2.2]
  refine ⟨hres, ?_, by simp [qualityToCrf, hvp]⟩
  refine ⟨["-f", "image2pipe", "-framerate", toString opts.fps, "-i",
    "pipe:0", "-y"],
    "-crf" :: toString (qualityToCrf opts.quality c) ::
      ((if c = "libx264" ∨ c = "libx265" then ["-pix_fmt", "yuv420p"] else [])
        ++ (if c = "libx264" then ["-movflags", "+faststart"] else [])
        ++ [opts.output]), ?_⟩
  simp [buildFfmpegArgs, hfmt, hcodec, hres]

/-- C10 witness: pass-through codec `"libaom-av1"` on an mp4 config. -/
theorem C10_codec_passthrough_witness :
    resolveCodec "libaom-av1" = "libaom-av1" ∧
    (∃ pre suf, buildFfmpegArgs
      { output := "out.mp4", width := 640, height := 480, fps := 30,
        format := .mp4, codec := "libaom-av1", quality := 75, loop := 0 }
      = pre ++ "-c:v" :: "libaom-av1" :: suf) ∧
    qualityToCrf 75 "libaom-av1" = jsRound ((100 - 75) * 51 / 100) :=
  C10_codec_passthrough "libaom-av1"
    { output := "out.mp4", width := 640, height := 480, fps := 30,
      format := .mp4, codec := "libaom-av1", quality := 75, loop := 0 }
    75 (by decide) (by decide) rfl (by decide)

/-! ## C5: easing registry and interpolation endpoints -/

theorem foldl_assign_congr (val1 val2 : AnimateSpec → ℚ)
    (h : ∀ s, val1 s = val2 s) (specs : List AnimateSpec)
    (init : List Char → Option ℚ) :
    specs.foldl
      (fun r s => fun k => if k = s.key then some (val1 s) else r k) init =
    specs.foldl
      (fun r s => fun k => if k = s.key then some (val2 s) else r k) init := by
  induction specs generalizing init with
  | nil => rfl
  | cons s rest ih =>
    simp only [List.foldl_cons]
    rw [show (fun k => if k = s.key then some (val1 s) else init k)
        = (fun k => if k = s.key then some (val2 s) else init k) from by
      funext k; rw [h s]]
    exact ih _

theorem interpolateParams_eased_zero (specs : List AnimateSpec) (t : ℚ)
    (e : ℚ → ℚ) (h : e (max 0 (min 1 t)) = 0) :
    interpolateParams specs t e = startsMap specs := by
  simp only [interpolateParams, startsMap]
  exact foldl_assign_congr _ _ (fun s => by rw [h]; ring) specs _

theorem interpolateParams_eased_one (specs : List AnimateSpec) (t : ℚ)
    (e : ℚ → ℚ) (h : e (max 0 (min 1 t)) = 1) :
    interpolateParams specs t e = endsMap specs := by
  simp only [interpolateParams, endsMap]
  exact foldl_assign_congr _ _ (fun s => by rw [h]; ring) specs _

/-- C5: every registered easing (linear, ease-in, ease-out, ease-in-out)
satisfies `f 0 = 0` and `f 1 = 1` and is monotone non-decreasing on `[0,1]`,
and for every spec list `interpolateParams specs 0` is the start record and
`interpolateParams specs 1` is the end record. -/
theorem C5_easings (p : String × (ℚ → ℚ)) (hp : p ∈ EASINGS)
    (specs : List AnimateSpec) (a b : ℚ)
    (h0 : 0 ≤ a) (hab : a ≤ b) (hb1 : b ≤ 1) :
    p.2 0 = 0 ∧ p.2 1 = 1 ∧ p.2 a ≤ p.2 b ∧
    interpolateParams specs 0 p.2 = startsMap specs ∧
    interpolateParams specs 1 p.2 = endsMap specs := by
  have hcl0 : max 0 (min 1 (0 : ℚ)) = 0 := by norm_num
  have hcl1 : max 0 (min 1 (1 : ℚ)) = 1 := by norm_num
  simp only [EASINGS, List.mem_cons, List.not_mem_nil, or_false] at hp
  rcases hp with rfl | rfl | rfl | rfl
  · exact ⟨rfl, rfl, hab,
      interpolateParams_eased_zero _ _ _ (by rw [hcl0]),
      interpolateParams_eased_one _ _ _ (by rw [hcl1])⟩
  · refine ⟨by norm_num, by norm_num, mul_self_le_mul_self h0 hab,
      interpolateParams_eased_zero _ _ _ (by rw [hcl0]; ring),
      interpolateParams_eased_one _ _ _ (by rw [hcl1]; ring)⟩
  · refine ⟨by norm_num, by norm_num, ?_,
      interpolateParams_eased_zero _ _ _ (by rw [hcl0]; ring),
      interpolateParams_eased_one _ _ _ (by rw [hcl1]; ring)⟩
    dsimp only
    nlinarith [mul_nonneg (sub_nonneg.mpr hab)
      (by linarith : (0 : ℚ) ≤ 2 - a - b)]
  · refine ⟨by norm_num, by norm_num, ?_,
      interpolateParams_eased_zero _ _ _ (by rw [hcl0]; norm_num),
      interpolateParams_eased_one _ _ _ (by rw [hcl1]; norm_num)⟩
    dsimp only
    split_ifs with ha hb hb
    · nlinarith
    · nlinarith
    · linarith
    · nlinarith

/-- C5 witness: the linear easing on `[(key "x", 2, 5)]`, with the
monotonicity pair `(1/4, 1/2)`. -/
theorem C5_easings_witness :
    (("linear", fun t : ℚ => t) : String × (ℚ → ℚ)).2 0 = 0 ∧
    (("linear", fun t : ℚ => t) : String × (ℚ → ℚ)).2 1 = 1 ∧
    (("linear", fun t : ℚ => t) : String × (ℚ → ℚ)).2 (1/4)
      ≤ (("linear", fun t : ℚ => t) : String × (ℚ → ℚ)).2 (1/2) ∧
    interpolateParams [⟨"x".data, 2, 5⟩] 0
      (("linear", fun t : ℚ => t) : String × (ℚ → ℚ)).2
      = startsMap [⟨"x".data, 2, 5⟩] ∧
    interpolateParams [⟨"x".data, 2, 5⟩] 1
      (("linear", fun t : ℚ => t) : String × (ℚ → ℚ)).2
      = endsMap [⟨"x".data, 2, 5⟩] :=
  C5_easings ("linear", fun t : ℚ => t) (List.mem_cons_self _ _)
    [⟨"x".data, 2, 5⟩] (1/4) (1/2) (by norm_num) (by norm_num) (by norm_num)

/-! ## Chunked-capture helper lemmas -/

theorem get?_set_self {α : Type} (l : List α) (i : ℕ) (v : α)
    (h : i < l.length) : (l.set i v).get? i = some v := by
  rw [List.get?_eq_getElem?, List.getElem?_set_self', List.getElem?_eq_getElem h]
  rfl

theorem get?_set_ne {α : Type} (l : List α) (i j : ℕ) (v : α)
    (h : i ≠ j) : (l.set i v).get? j = l.get? j := by
  rw [List.get?_eq_getElem?, List.getElem?_set_ne h, List.get?_eq_getElem?]

theorem get?_oob {α : Type} (l : List α) (j : ℕ) (h : l.length ≤ j) :
    l.get? j = none :=
  List.get?_eq_none.mpr h

theorem reduceOption_map_some (l : List ℕ) (f : ℕ → ℕ) :
    (l.map (fun x => some (f x))).reduceOption = l.map f := by
  induction l with
  | nil => rfl
  | cons a t ih => simp [List.reduceOption_cons_of_some, ih]

theorem fillSlots_get? (g : ℕ → Option ℕ) (order : List ℕ)
    (init : List (Option ℕ)) (j : ℕ) :
    (fillSlots g order init).get? j =
      if j ∈ order ∧ j < init.length then some (g j) else init.get? j := by
  induction order generalizing init with
  | nil => simp [fillSlots]
  | cons k rest ih =>
    have hstep : fillSlots g (k :: rest) init
        = fillSlots g rest (init.set k (g k)) := rfl
    rw [hstep, ih]
    simp only [List.length_set, List.mem_cons]
    by_cases hjl : j < init.length
    · by_cases hjr : j ∈ rest
      · rw [if_pos ⟨hjr, hjl⟩, if_pos ⟨Or.inr hjr, hjl⟩]
      · rw [if_neg (fun h => hjr h.1)]
        by_cases hjk : j = k
        · subst hjk
          rw [if_pos ⟨Or.inl rfl, hjl⟩, get?_set_self _ _ _ hjl]
        · rw [if_neg (fun h => h.1.elim (fun e => hjk e) hjr),
            get?_set_ne _ _ _ _ (fun e => hjk e.symm)]
    · rw [if_neg (fun h => hjl h.2), if_neg (fun h => hjl h.2),
        get?_oob _ _ (by simpa using le_of_not_lt hjl),
        get?_oob _ _ (le_of_not_lt hjl)]

theorem captureChunk_ok (capture : ℕ → Except String ℕ) (buf : ℕ → ℕ)
    (idxs order : List ℕ)
    (hok : ∀ fi ∈ idxs, capture fi = .ok (buf fi))
    (hcov : ∀ j, j < idxs.length → j ∈ order) :
    captureChunk capture idxs order = .ok (idxs.map buf) := by
  unfold captureChunk
  rw [if_pos]
  · have hslots :
        fillSlots (fun j => (idxs.get? j).bind fun fi => (capture fi).toOption)
          order (List.replicate idxs.length none)
        = idxs.map (fun fi => some (buf fi)) := by
      apply List.ext_get?_iff.mpr
      intro n
      rw [fillSlots_get?]
      simp only [List.length_replicate]
      by_cases hn : n < idxs.length
      · rw [if_pos ⟨hcov n hn, hn⟩, List.get?_map,
          List.get?_eq_getElem?, List.getElem?_eq_getElem hn]
        simp [hok (idxs[n]) (List.getElem_mem hn), Except.toOption]
      · rw [if_neg (fun h => hn h.2),
          get?_oob _ _ (by simpa using le_of_not_lt hn),
          get?_oob _ _ (by simpa using le_of_not_lt hn)]
    rw [hslots, reduceOption_map_some]
  · rw [List.all_eq_true]
    intro fi hfi
    simp [hok fi hfi, Except.isOk, Except.toBool]

theorem range'_add_split (i a b : ℕ) :
    List.range' i (a + b) = List.range' i a ++ List.range' (i + a) b := by
  induction a generalizing i with
  | zero => simp
  | succ a ih =>
    have h1 : a + 1 + b = (a + b) + 1 := by omega
    rw [h1, List.range'_succ, List.range'_succ, ih, List.cons_append,
      show i + 1 + a = i + (a + 1) from by omega]

theorem chunkLoop_ok (capture : ℕ → Except String ℕ) (orders : ℕ → List ℕ)
    (buf : ℕ → ℕ) (total C : ℕ) (hC : 0 < C)
    (hok : ∀ fi, fi < total → capture fi = .ok (buf fi))
    (hcov : ∀ c j, j < C → j ∈ orders c) :
    ∀ n i acc, total - i ≤ n →
      chunkLoop capture orders total C i acc
        = (acc ++ (List.range' i (total - i)).map buf, true) := by
  intro n
  induction n with
  | zero =>
    intro i acc h
    rw [chunkLoop, dif_neg (fun hh : i < total ∧ 0 < C => by omega)]
    simp [show total - i = 0 from by omega]
  | succ n ih =>
    intro i acc h
    by_cases hi : i < total
    · have hcc : captureChunk capture
          ((List.range (min C (total - i))).map (i + ·)) (orders (i / C))
          = .ok (((List.range (min C (total - i))).map (i + ·)).map buf) := by
        apply captureChunk_ok
        · intro fi hfi
          simp only [List.mem_map, List.mem_range] at hfi
          obtain ⟨j, hj, rfl⟩ := hfi
          exact hok _ (by omega)
        · intro j hj
          apply hcov
          simp only [List.length_map, List.length_range] at hj
          omega
      rw [chunkLoop, dif_pos ⟨hi, hC⟩]
      simp only [hcc]
      rw [ih (i + C) _ (by omega)]
      rcases le_or_lt (total - i) C with hle | hlt
      · have hsize : min C (total - i) = total - i := by omega
        have h0 : total - (i + C) = 0 := by omega
        simp [hsize, h0, ← List.range'_eq_map_range]
      · have hsize : min C (total - i) = C := by omega
        rw [hsize, List.append_assoc, ← List.map_append,
          ← List.range'_eq_map_range, ← range'_add_split,
          show C + (total - (i + C)) = total - i from by omega]
    · rw [chunkLoop, dif_neg (fun hh : i < total ∧ 0 < C => hi hh.1)]
      simp [show total - i = 0 from by omega]

theorem chunkPartition_length (total C : ℕ) :
    ∀ n i, total - i ≤ n →
      ∀ chunk ∈ chunkPartition total C i, chunk.length ≤ C := by
  intro n
  induction n with
  | zero =>
    intro i h chunk hc
    rw [chunkPartition, dif_neg (fun hh : i < total ∧ 0 < C => by omega)] at hc
    exact absurd hc (List.not_mem_nil _)
  | succ n ih =>
    intro i h chunk hc
    rw [chunkPartition] at hc
    by_cases hcond : i < total ∧ 0 < C
    · rw [dif_pos hcond] at hc
      rcases List.mem_cons.mp hc with rfl | hmem
      · simp only [List.length_map, List.length_range]
        omega
      · exact ih (i + C) (by omega) chunk hmem
    · rw [dif_neg hcond] at hc
      exact absurd hc (List.not_mem_nil _)

theorem chunkPartition_flatten (total C : ℕ) (hC : 0 < C) :
    ∀ n i, total - i ≤ n →
      (chunkPartition total C i).flatten = List.range' i (total - i) := by
  intro n
  induction n with
  | zero =>
    intro i h
    rw [chunkPartition, dif_neg (fun hh : i < total ∧ 0 < C => by omega)]
    simp [show total - i = 0 from by omega]
  | succ n ih =>
    intro i h
    by_cases hi : i < total
    · rw [chunkPartition, dif_pos ⟨hi, hC⟩]
      rw [List.flatten_cons, ih (i + C) (by omega)]
      rcases le_or_lt (total - i) C with hle | hlt
      · have hsize : min C (total - i) = total - i := by omega
        have h0 : total - (i + C) = 0 := by omega
        simp [hsize, h0, ← List.range'_eq_map_range]
      · have hsize : min C (total - i) = C := by omega
        rw [hsize, ← List.range'_eq_map_range, ← range'_add_split,
          show C + (total - (i + C)) = total - i from by omega]
    · rw [chunkPartition, dif_neg (fun hh : i < total ∧ 0 < C => hi hh.1)]
      simp [show total - i = 0 from by omega]

theorem runVideo_ok (env : VideoEnv) (buf : ℕ → ℕ)
    (hrend : env.rendererType ≠ "svg")
    (hff : (findFfmpeg env.envFfmpegPath env.whichOut).isOk = true)
    (hanim : ∀ a ∈ env.animate, (parseAnimate a).isOk = true)
    (heas : (EASINGS.lookup env.easingName).isSome = true)
    (hC : 0 < env.concurrency)
    (hok : ∀ fi, fi < (totalFramesZ env.duration env.fps).toNat →
      env.capture fi = .ok (buf fi))
    (hcov : ∀ c j, j < env.concurrency → j ∈ env.completionOrders c) :
    (runVideo env).framesWritten
      = (List.range ((totalFramesZ env.duration env.fps).toNat)).map buf ∧
    (runVideo env).spawned = true ∧
    (runVideo env).stdinClosed = true ∧
    (runVideo env).awaitedExit = true ∧
    (runVideo env).exitCode = (if env.encoderExitCode ≠ 0 then 1 else 0) := by
  have hloop := chunkLoop_ok env.capture env.completionOrders buf
    ((totalFramesZ env.duration env.fps).toNat) env.concurrency hC hok hcov
    ((totalFramesZ env.duration env.fps).toNat) 0 [] (by omega)
  unfold runVideo
  rw [if_neg hrend]
  cases hf : findFfmpeg env.envFfmpegPath env.whichOut with
  | error e =>
    rw [hf] at hff
    simp [Except.isOk, Except.toBool] at hff
  | ok p =>
    dsimp only
    have hany : (env.animate.map parseAnimate).any (fun r => !r.isOk) = false := by
      rw [List.any_eq_false]
      intro r hr
      simp only [List.mem_map] at hr
      obtain ⟨a, ha, rfl⟩ := hr
      simp [hanim a ha]
    cases hlk : EASINGS.lookup env.easingName with
    | none => rw [hlk] at heas; simp at heas
    | some f =>
      simp only [hany, hloop, Option.isNone_some, Bool.false_eq_true, if_false,
        List.nil_append, Nat.sub_zero, ← List.range_eq_range']
      by_cases hec : env.encoderExitCode ≠ 0
      · simp only [if_pos hec]
        exact ⟨trivial, trivial, trivial, trivial, trivial⟩
      · simp only [if_neg hec]
        exact ⟨trivial, trivial, trivial, trivial, trivial⟩

theorem runVideo_captureFail (env : VideoEnv)
    (hrend : env.rendererType ≠ "svg")
    (hff : (findFfmpeg env.envFfmpegPath env.whichOut).isOk = true)
    (hanim : ∀ a ∈ env.animate, (parseAnimate a).isOk = true)
    (heas : (EASINGS.lookup env.easingName).isSome = true)
    (htot : 0 < (totalFramesZ env.duration env.fps).toNat)
    (hC : 0 < env.concurrency)
    (hbad : ∀ fi, (env.capture fi).isOk = false) :
    runVideo env = { exitCode := 1, framesWritten := [], spawned := true,
                     stdinClosed := false, awaitedExit := false,
                     browserClosed := true } := by
  have hloop : chunkLoop env.capture env.completionOrders
      ((totalFramesZ env.duration env.fps).toNat) env.concurrency 0 []
      = ([], false) := by
    rw [chunkLoop, dif_pos ⟨htot, hC⟩]
    have hcc : captureChunk env.capture
        ((List.range (min env.concurrency
          ((totalFramesZ env.duration env.fps).toNat - 0))).map (0 + ·))
        (env.completionOrders (0 / env.concurrency))
        = .error "frame capture failed" := by
      unfold captureChunk
      rw [if_neg]
      intro hall
      rw [List.all_eq_true] at hall
      have h0 : (0 : ℕ) ∈ (List.range (min env.concurrency
          ((totalFramesZ env.duration env.fps).toNat - 0))).map (0 + ·) := by
        simp only [List.mem_map, List.mem_range]
        exact ⟨0, by omega, rfl⟩
      have hc := hall _ h0
      rw [hbad 0] at hc
      exact Bool.noConfusion hc
    simp only [hcc]
  unfold runVideo
  rw [if_neg hrend]
  cases hf : findFfmpeg env.envFfmpegPath env.whichOut with
  | error e =>
    rw [hf] at hff
    simp [Except.isOk, Except.toBool] at hff
  | ok p =>
    dsimp only
    have hany : (env.animate.map parseAnimate).any (fun r => !r.isOk) = false := by
      rw [List.any_eq_false]
      intro r hr
      simp only [List.mem_map] at hr
      obtain ⟨a, ha, rfl⟩ := hr
      simp [hanim a ha]
    cases hlk : EASINGS.lookup env.easingName with
    | none => rw [hlk] at heas; simp at heas
    | some f =>
      simp only [hany, hloop, Option.isNone_some, Bool.false_eq_true, if_false]

/-! ## C1: ascending frame order under arbitrary completion order -/

/-- C1: with totalFrames ≥ 1, concurrency ≥ 1 and every capture succeeding,
the buffers written to the encoder's stdin are exactly the frames for
indices `0..totalFrames-1` in ascending order, for EVERY family of
intra-chunk completion orders; the timeline is partitioned into consecutive
chunks of size at most `concurrency` whose concatenation is the full index
range, and results are stored at position-in-chunk index. -/
theorem C1_frame_order (env : VideoEnv) (buf : ℕ → ℕ)
    (hrend : env.rendererType ≠ "svg")
    (hff : (findFfmpeg env.envFfmpegPath env.whichOut).isOk = true)
    (hanim : ∀ a ∈ env.animate, (parseAnimate a).isOk = true)
    (heas : (EASINGS.lookup env.easingName).isSome = true)
    (htot : 1 ≤ (totalFramesZ env.duration env.fps).toNat)
    (hC : 0 < env.concurrency)
    (hok : ∀ fi, fi < (totalFramesZ env.duration env.fps).toNat →
      env.capture fi = .ok (buf fi))
    (hcov : ∀ c j, j < env.concurrency → j ∈ env.completionOrders c) :
    (runVideo env).framesWritten
      = (List.range ((totalFramesZ env.duration env.fps).toNat)).map buf ∧
    (∀ chunk ∈ chunkPartition ((totalFramesZ env.duration env.fps).toNat)
        env.concurrency 0, chunk.length ≤ env.concurrency) ∧
    (chunkPartition ((totalFramesZ env.duration env.fps).toNat)
        env.concurrency 0).flatten
      = List.range ((totalFramesZ env.duration env.fps).toNat) := by
  refine ⟨(runVideo_ok env buf hrend hff hanim heas hC hok hcov).1,
    chunkPartition_length _ _ ((totalFramesZ env.duration env.fps).toNat) 0
      (by omega), ?_⟩
  have h := chunkPartition_flatten ((totalFramesZ env.duration env.fps).toNat)
    env.concurrency hC ((totalFramesZ env.duration env.fps).toNat) 0 (by omega)
  simpa [List.range_eq_range'] using h

/-- C1 witness: 3 frames at concurrency 2 with reverse completion order in
each chunk still yields frames 0,1,2 in ascending order. -/
theorem C1_frame_order_witness :
    (runVideo baseEnv).framesWritten
      = (List.range ((totalFramesZ baseEnv.duration baseEnv.fps).toNat)).map id ∧
    (∀ chunk ∈ chunkPartition ((totalFramesZ baseEnv.duration baseEnv.fps).toNat)
        baseEnv.concurrency 0, chunk.length ≤ baseEnv.concurrency) ∧
    (chunkPartition ((totalFramesZ baseEnv.duration baseEnv.fps).toNat)
        baseEnv.concurrency 0).flatten
      = List.range ((totalFramesZ baseEnv.duration baseEnv.fps).toNat) :=
  C1_frame_order baseEnv id (by decide) rfl
    (fun a ha => absurd ha (List.not_mem_nil a)) rfl
    (by norm_num [totalFramesZ, baseEnv]) (by decide)
    (fun fi _ => rfl)
    (by
      intro c j hj
      have hj2 : j < 2 := hj
      rcases (by omega : j = 0 ∨ j = 1) with rfl | rfl <;> simp [baseEnv])

/-! ## C3: totalFrames = ceil(duration × fps) — but no minimum of 1 -/

/-- C3 counterexample: at `--duration 0` (fps 10) the code computes
`totalFrames = ceil(0 × 10) = 0`, and the run succeeds having delivered zero
frames — not the claimed minimum of one frame. -/
theorem C3_counterexample :
    totalFramesZ 0 10 = 0 ∧
    (runVideo zeroDurationEnv).framesWritten = [] ∧
    (runVideo zeroDurationEnv).exitCode = 0 := by
  have htf : totalFramesZ zeroDurationEnv.duration zeroDurationEnv.fps = 0 := by
    norm_num [totalFramesZ, zeroDurationEnv, baseEnv]
  have h := runVideo_ok zeroDurationEnv id (by decide) rfl
    (fun a ha => absurd ha (List.not_mem_nil a)) rfl (by decide)
    (fun fi _ => rfl)
    (by
      intro c j hj
      have hj2 : j < 2 := hj
      rcases (by omega : j = 0 ∨ j = 1) with rfl | rfl <;>
        simp [zeroDurationEnv, baseEnv])
  rw [htf] at h
  refine ⟨by norm_num [totalFramesZ], by simpa using h.1, ?_⟩
  have he := h.2.2.2.2
  rw [he]
  simp [zeroDurationEnv, baseEnv]

/-- C3 amended: `totalFrames = ceil(duration × fps)` with NO minimum-1 clamp:
a successful run delivers exactly `ceil(duration × fps)` frames; the cited
examples (1,10)→10, (0.5,3)→2, (0.03,10)→1 hold; and at least one frame is
produced iff `duration × fps > 0` (duration 0 yields a zero-frame run). -/
theorem C3_totalFrames (env : VideoEnv) (buf : ℕ → ℕ)
    (hrend : env.rendererType ≠ "svg")
    (hff : (findFfmpeg env.envFfmpegPath env.whichOut).isOk = true)
    (hanim : ∀ a ∈ env.animate, (parseAnimate a).isOk = true)
    (heas : (EASINGS.lookup env.easingName).isSome = true)
    (hC : 0 < env.concurrency)
    (hok : ∀ fi, fi < (totalFramesZ env.duration env.fps).toNat →
      env.capture fi = .ok (buf fi))
    (hcov : ∀ c j, j < env.concurrency → j ∈ env.completionOrders c) :
    (runVideo env).framesWritten.length
      = (totalFramesZ env.duration env.fps).toNat ∧
    totalFramesZ 1 10 = 10 ∧
    totalFramesZ (1/2) 3 = 2 ∧
    totalFramesZ (3/100) 10 = 1 ∧
    (1 ≤ totalFramesZ env.duration env.fps ↔ 0 < env.duration * env.fps) := by
  refine ⟨?_, by norm_num [totalFramesZ],
    by norm_num [totalFramesZ, Int.ceil_eq_iff],
    by norm_num [totalFramesZ, Int.ceil_eq_iff], ?_⟩
  · rw [(runVideo_ok env buf hrend hff hanim heas hC hok hcov).1]
    simp
  · unfold totalFramesZ
    constructor
    · intro h1
      have h0 : (0 : ℤ) < ⌈env.duration * env.fps⌉ := by omega
      exact_mod_cast Int.lt_ceil.mp (by exact_mod_cast h0)
    · intro h0
      have := Int.lt_ceil.mpr (show ((0 : ℤ) : ℚ) < env.duration * env.fps by
        exact_mod_cast h0)
      omega

/-- C3 amended witness: the happy-path environment delivers
`ceil(3 × 1) = 3` frames. -/
theorem C3_totalFrames_witness :
    (runVideo baseEnv).framesWritten.length
      = (totalFramesZ baseEnv.duration baseEnv.fps).toNat ∧
    totalFramesZ 1 10 = 10 ∧
    totalFramesZ (1/2) 3 = 2 ∧
    totalFramesZ (3/100) 10 = 1 ∧
    (1 ≤ totalFramesZ baseEnv.duration baseEnv.fps ↔
      0 < baseEnv.duration * baseEnv.fps) :=
  C3_totalFrames baseEnv id (by decide) rfl
    (fun a ha => absurd ha (List.not_mem_nil a)) rfl (by decide)
    (fun fi _ => rfl)
    (by
      intro c j hj
      have hj2 : j < 2 := hj
      rcases (by omega : j = 0 ∨ j = 1) with rfl | rfl <;> simp [baseEnv])

/-! ## C2: the encoder subprocess on abort paths -/

/-- C2 counterexample: with every frame capture failing (a capture abort on
the very first chunk), the run ends with exit code 1 while the spawned
encoder subprocess has neither had its input stream closed nor its exit
awaited — it is left orphaned with an open stdin. -/
theorem C2_counterexample :
    (runVideo captureFailEnv).exitCode = 1 ∧
    (runVideo captureFailEnv).spawned = true ∧
    ¬ encoderReleased (runVideo captureFailEnv) := by
  have h := runVideo_captureFail captureFailEnv (by decide) rfl
    (fun a ha => absurd ha (List.not_mem_nil a)) rfl
    (by norm_num [totalFramesZ, captureFailEnv, baseEnv]) (by decide)
    (fun fi => rfl)
  rw [h]
  refine ⟨rfl, rfl, ?_⟩
  rintro (hr | hr | hr) <;> exact Bool.noConfusion hr

/-- C2 amended: the encoder subprocess is released on the svg-reject,
resolution-failure, and encoder-exit abort paths — on the first two it is
never spawned, and after a complete frame stream its stdin is closed and its
exit awaited regardless of the exit code — but NOT on the frame-capture
abort path: there the spawned encoder is left with an open input stream. -/
theorem C2_encoder_release (env : VideoEnv)
    (hrend : env.rendererType ≠ "svg")
    (hff : (findFfmpeg env.envFfmpegPath env.whichOut).isOk = true)
    (hanim : ∀ a ∈ env.animate, (parseAnimate a).isOk = true)
    (heas : (EASINGS.lookup env.easingName).isSome = true)
    (htot : 0 < (totalFramesZ env.duration env.fps).toNat)
    (hC : 0 < env.concurrency)
    (hoki : ∀ fi, (env.capture fi).isOk = true)
    (hcov : ∀ c j, j < env.concurrency → j ∈ env.completionOrders c) :
    ((runVideo { env with envFfmpegPath := none, whichOut := none }).spawned
        = false ∧
      encoderReleased (runVideo { env with envFfmpegPath := none,
                                           whichOut := none })) ∧
    ((runVideo { env with rendererType := "svg" }).spawned = false ∧
      encoderReleased (runVideo { env with rendererType := "svg" })) ∧
    ((runVideo env).stdinClosed = true ∧ (runVideo env).awaitedExit = true ∧
      encoderReleased (runVideo env)) ∧
    ((runVideo { env with
        capture := fun _ => .error "capture failed" }).spawned = true ∧
      ¬ encoderReleased (runVideo { env with
        capture := fun _ => .error "capture failed" })) := by
  have h1 : runVideo { env with envFfmpegPath := none, whichOut := none }
      = earlyFailure := by
    unfold runVideo
    dsimp only
    rw [if_neg hrend]
    rfl
  have h2 : runVideo { env with rendererType := "svg" } = earlyFailure := by
    unfold runVideo
    dsimp only
    rw [if_pos rfl]
  have hok' : ∀ fi, fi < (totalFramesZ env.duration env.fps).toNat →
      env.capture fi = .ok (((env.capture fi).toOption).getD 0) := by
    intro fi _
    have hi := hoki fi
    cases hcf : env.capture fi with
    | error e => rw [hcf] at hi; simp [Except.isOk, Except.toBool] at hi
    | ok b => simp [Except.toOption]
  have h3 := runVideo_ok env _ hrend hff hanim heas hC hok' hcov
  have h4 : runVideo { env with capture := fun _ => .error "capture failed" }
      = { exitCode := 1, framesWritten := [], spawned := true,
          stdinClosed := false, awaitedExit := false,
          browserClosed := true } :=
    runVideo_captureFail _ hrend hff hanim heas htot hC (fun fi => rfl)
  refine ⟨⟨by rw [h1]; rfl, by rw [h1]; exact Or.inl rfl⟩,
    ⟨by rw [h2]; rfl, by rw [h2]; exact Or.inl rfl⟩,
    ⟨h3.2.2.1, h3.2.2.2.1, Or.inr (Or.inl h3.2.2.1)⟩, ?_, ?_⟩
  · rw [h4]
  · rw [h4]
    rintro (hr | hr | hr) <;> exact Bool.noConfusion hr

/-- C2 amended witness: instantiated at the happy-path environment. -/
theorem C2_encoder_release_witness :
    ((runVideo { baseEnv with envFfmpegPath := none,
                              whichOut := none }).spawned = false ∧
      encoderReleased (runVideo { baseEnv with envFfmpegPath := none,
                                               whichOut := none })) ∧
    ((runVideo { baseEnv with rendererType := "svg" }).spawned = false ∧
      encoderReleased (runVideo { baseEnv with rendererType := "svg" })) ∧
    ((runVideo baseEnv).stdinClosed = true ∧
      (runVideo baseEnv).awaitedExit = true ∧
      encoderReleased (runVideo baseEnv)) ∧
    ((runVideo { baseEnv with
        capture := fun _ => .error "capture failed" }).spawned = true ∧
      ¬ encoderReleased (runVideo { baseEnv with
        capture := fun _ => .error "capture failed" })) :=
  C2_encoder_release baseEnv (by decide) rfl
    (fun a ha => absurd ha (List.not_mem_nil a)) rfl
    (by norm_num [totalFramesZ, baseEnv]) (by decide) (fun fi => rfl)
    (by
      intro c j hj
      have hj2 : j < 2 := hj
      rcases (by omega : j = 0 ∨ j = 1) with rfl | rfl <;> simp [baseEnv])

/-! ## C8: encoder-binary resolution -/

/-- C8: `findFfmpeg` returns the env override when it is set (and non-empty)
without consulting the execution path; with no override it returns the
trimmed `which` output; when neither resolves it fails with a message
carrying install guidance — and since resolution precedes the capture loop,
on failure zero frames are written and the run exits 1 with no encoder
spawned. -/
theorem C8_findFfmpeg (p w : String) (hp : p ≠ "") (env : VideoEnv)
    (henv : env.envFfmpegPath = none) (hwhich : env.whichOut = none) :
    findFfmpeg (some p) (some w) = .ok p ∧
    findFfmpeg (some p) none = .ok p ∧
    findFfmpeg none (some w) = .ok (trimStr w) ∧
    findFfmpeg none none = .error ffmpegNotFoundMsg ∧
    ffmpegNotFoundMsg
      = "ffmpeg not found. " ++ "Install ffmpeg" ++
          " or set GENART_FFMPEG_PATH.\n  macOS: brew install ffmpeg\n  Linux: sudo apt install ffmpeg\n  Or: GENART_FFMPEG_PATH=/path/to/ffmpeg genart video ..." ∧
    (runVideo env).framesWritten = [] ∧
    (runVideo env).exitCode = 1 ∧
    (runVideo env).spawned = false := by
  have hrv : runVideo env = earlyFailure := by
    unfold runVideo
    rw [henv, hwhich]
    by_cases hsvg : env.rendererType = "svg"
    · rw [if_pos hsvg]
    · rw [if_neg hsvg]
      rfl
  refine ⟨by simp [findFfmpeg, hp], by simp [findFfmpeg, hp], rfl, rfl, rfl,
    by rw [hrv]; rfl, by rw [hrv]; rfl, by rw [hrv]; rfl⟩

/-- C8 witness: concrete override path, `which` output with a trailing
newline, and the no-resolution environment. -/
theorem C8_findFfmpeg_witness :
    findFfmpeg (some "/custom/ffmpeg") (some "/usr/local/bin/ffmpeg\n")
      = .ok "/custom/ffmpeg" ∧
    findFfmpeg (some "/custom/ffmpeg") none = .ok "/custom/ffmpeg" ∧
    findFfmpeg none (some "/usr/local/bin/ffmpeg\n")
      = .ok (trimStr "/usr/local/bin/ffmpeg\n") ∧
    findFfmpeg none none = .error ffmpegNotFoundMsg ∧
    ffmpegNotFoundMsg
      = "ffmpeg not found. " ++ "Install ffmpeg" ++
          " or set GENART_FFMPEG_PATH.\n  macOS: brew install ffmpeg\n  Linux: sudo apt install ffmpeg\n  Or: GENART_FFMPEG_PATH=/path/to/ffmpeg genart video ..." ∧
    (runVideo noFfmpegEnv).framesWritten = [] ∧
    (runVideo noFfmpegEnv).exitCode = 1 ∧
    (runVideo noFfmpegEnv).spawned = false :=
  C8_findFfmpeg "/custom/ffmpeg" "/usr/local/bin/ffmpeg\n" (by decide)
    noFfmpegEnv rfl rfl

/-! ## C9: frame time offset -/

/-- C9 counterexample: at frame index 1 with fps 30 the code computes
`timeOffsetMs = (1/30)×1000 = 100/3`, which is not an integer — contrary to
the integer-typed `timeOffsetMs` of the FrameJob data model and the integer
milliseconds stated by the Time Offset Injector contract. -/
theorem C9_counterexample : ¬ ∃ z : ℤ, frameTimeOffsetMs 1 30 = (z : ℚ) := by
  rintro ⟨z, hz⟩
  have h1 : frameTimeOffsetMs 1 30 = 100/3 := by
    norm_num [frameTimeOffsetMs]
  rw [h1] at hz
  have h2 : (z : ℚ) * 3 = 100 := by rw [← hz]; norm_num
  have h3 : z * 3 = 100 := by exact_mod_cast h2
  omega

/-- C9 amended: the frame job's time offset equals (index/fps)×1000 ms as an
exact rational — `offset × fps = 1000 × index` — and it is an integer exactly
when fps divides 1000×index, not in general (see the counterexample at
index 1, fps 30). -/
theorem C9_timeOffset (i fps : ℕ) (hfps : 0 < fps) :
    frameTimeOffsetMs i fps * fps = 1000 * i ∧
    ((∃ z : ℤ, frameTimeOffsetMs i fps = (z : ℚ)) ↔
      (fps : ℤ) ∣ 1000 * i) := by
  have hf : (fps : ℚ) ≠ 0 := Nat.cast_ne_zero.mpr hfps.ne'
  constructor
  · unfold frameTimeOffsetMs
    field_simp
    ring
  · constructor
    · rintro ⟨z, hz⟩
      have h1 : (z : ℚ) * fps = 1000 * i := by
        rw [← hz]
        unfold frameTimeOffsetMs
        field_simp
        ring
      have h2 : z * (fps : ℤ) = 1000 * i := by exact_mod_cast h1
      exact ⟨z, by rw [← h2]; ring⟩
    · rintro ⟨k, hk⟩
      refine ⟨k, ?_⟩
      have hkQ : (1000 : ℚ) * i = fps * k := by exact_mod_cast hk
      unfold frameTimeOffsetMs
      field_simp
      linarith [hkQ]

/-- C9 amended witness: index 3 at fps 10 — offset 300 ms, an integer since
10 divides 3000. -/
theorem C9_timeOffset_witness :
    frameTimeOffsetMs 3 10 * ((10 : ℕ) : ℚ) = 1000 * ((3 : ℕ) : ℚ) ∧
    ((∃ z : ℤ, frameTimeOffsetMs 3 10 = (z : ℚ)) ↔
      ((10 : ℕ) : ℤ) ∣ 1000 * ((3 : ℕ) : ℤ)) :=
  C9_timeOffset 3 10 (by norm_num)

/-! ## C7: argv structure -/

theorem ne_of_not_mem_tokens {x t : String} (hx : x ∉ ffmpegFlagTokens)
    (ht : t ∈ ffmpegFlagTokens) : ¬ (t = x) :=
  fun he => hx (he ▸ ht)

/-- C7: for every config whose free-form fields (output path, resolved codec
name, stringified numbers) do not collide with a flag token — true of every
real invocation — the argv always carries the explicit overwrite flag `-y`;
the GIF variant carries the frame-rate filter flag `-vf` and the loop-count
flag `-loop` and no codec (`-c:v`) or quality (`-crf`) argument; and for
non-GIF formats the pixel-format-normalization flag appears exactly for the
libx264/libx265 codec families and the container-finalize flag exactly for
libx264 — never unconditionally. -/
theorem C7_buildArgs (opts : FfmpegOptions) (hfmt : opts.format ≠ .gif)
    (hout : opts.output ∉ ffmpegFlagTokens)
    (hcodec : resolveCodec opts.codec ∉ ffmpegFlagTokens)
    (hfps : toString opts.fps ∉ ffmpegFlagTokens)
    (hfpsv : "fps=" ++ toString opts.fps ∉ ffmpegFlagTokens)
    (hloop : toString opts.loop ∉ ffmpegFlagTokens)
    (hcrf : toString (qualityToCrf opts.quality (resolveCodec opts.codec))
      ∉ ffmpegFlagTokens) :
    "-y" ∈ buildFfmpegArgs opts ∧
    "-y" ∈ buildFfmpegArgs { opts with format := .gif } ∧
    "-vf" ∈ buildFfmpegArgs { opts with format := .gif } ∧
    "-loop" ∈ buildFfmpegArgs { opts with format := .gif } ∧
    "-c:v" ∉ buildFfmpegArgs { opts with format := .gif } ∧
    "-crf" ∉ buildFfmpegArgs { opts with format := .gif } ∧
    ("-pix_fmt" ∈ buildFfmpegArgs opts ↔
      resolveCodec opts.codec = "libx264" ∨
        resolveCodec opts.codec = "libx265") ∧
    ("-movflags" ∈ buildFfmpegArgs opts ↔
      resolveCodec opts.codec = "libx264") := by
  have ha1 := ne_of_not_mem_tokens hfps
    (show ("-c:v" : String) ∈ ffmpegFlagTokens by decide)
  have ha2 := ne_of_not_mem_tokens hfpsv
    (show ("-c:v" : String) ∈ ffmpegFlagTokens by decide)
  have ha3 := ne_of_not_mem_tokens hloop
    (show ("-c:v" : String) ∈ ffmpegFlagTokens by decide)
  have ha4 := ne_of_not_mem_tokens hout
    (show ("-c:v" : String) ∈ ffmpegFlagTokens by decide)
  have hb1 := ne_of_not_mem_tokens hfps
    (show ("-crf" : String) ∈ ffmpegFlagTokens by decide)
  have hb2 := ne_of_not_mem_tokens hfpsv
    (show ("-crf" : String) ∈ ffmpegFlagTokens by decide)
  have hb3 := ne_of_not_mem_tokens hloop
    (show ("-crf" : String) ∈ ffmpegFlagTokens by decide)
  have hb4 := ne_of_not_mem_tokens hout
    (show ("-crf" : String) ∈ ffmpegFlagTokens by decide)
  have hc1 := ne_of_not_mem_tokens hfps
    (show ("-pix_fmt" : String) ∈ ffmpegFlagTokens by decide)
  have hc2 := ne_of_not_mem_tokens hcodec
    (show ("-pix_fmt" : String) ∈ ffmpegFlagTokens by decide)
  have hc3 := ne_of_not_mem_tokens hcrf
    (show ("-pix_fmt" : String) ∈ ffmpegFlagTokens by decide)
  have hc4 := ne_of_not_mem_tokens hout
    (show ("-pix_fmt" : String) ∈ ffmpegFlagTokens by decide)
  have hd1 := ne_of_not_mem_tokens hfps
    (show ("-movflags" : String) ∈ ffmpegFlagTokens by decide)
  have hd2 := ne_of_not_mem_tokens hcodec
    (show ("-movflags" : String) ∈ ffmpegFlagTokens by decide)
  have hd3 := ne_of_not_mem_tokens hcrf
    (show ("-movflags" : String) ∈ ffmpegFlagTokens by decide)
  have hd4 := ne_of_not_mem_tokens hout
    (show ("-movflags" : String) ∈ ffmpegFlagTokens by decide)
  refine ⟨?_, ?_, ?_, ?_, ?_, ?_, ?_, ?_⟩
  · simp only [buildFfmpegArgs]
    rw [if_neg hfmt]
    simp
  · simp [buildFfmpegArgs]
  · simp [buildFfmpegArgs]
  · simp [buildFfmpegArgs]
  · simp [buildFfmpegArgs, ha1, ha2, ha3, ha4]
  · simp [buildFfmpegArgs, hb1, hb2, hb3, hb4]
  · simp only [buildFfmpegArgs]
    rw [if_neg hfmt]
    by_cases hx : resolveCodec opts.codec = "libx264"
    · rw [if_pos (Or.inl hx)]
      simp [hx]
    · by_cases hx5 : resolveCodec opts.codec = "libx265"
      · rw [if_pos (Or.inr hx5), if_neg hx]
        simp [hx5]
      · rw [if_neg (by rintro (h | h) <;> [exact hx h; exact hx5 h]),
          if_neg hx]
        simp [hx, hx5, hc1, hc2, hc3, hc4]
  · simp only [buildFfmpegArgs]
    rw [if_neg hfmt]
    by_cases hx : resolveCodec opts.codec = "libx264"
    · rw [if_pos (Or.inl hx), if_pos hx]
      simp [hx]
    · by_cases hx5 : resolveCodec opts.codec = "libx265"
      · rw [if_pos (Or.inr hx5), if_neg hx]
        simp [hx, hd1, hd2, hd3, hd4]
      · rw [if_neg (by rintro (h | h) <;> [exact hx h; exact hx5 h]),
          if_neg hx]
        simp [hx, hx5, hd1, hd2, hd3, hd4]

/-- C7 witness: the default-style mp4/h264 config and its gif variant. -/
theorem C7_buildArgs_witness :
    "-y" ∈ buildFfmpegArgs mp4Opts ∧
    "-y" ∈ buildFfmpegArgs { mp4Opts with format := .gif } ∧
    "-vf" ∈ buildFfmpegArgs { mp4Opts with format := .gif } ∧
    "-loop" ∈ buildFfmpegArgs { mp4Opts with format := .gif } ∧
    "-c:v" ∉ buildFfmpegArgs { mp4Opts with format := .gif } ∧
    "-crf" ∉ buildFfmpegArgs { mp4Opts with format := .gif } ∧
    ("-pix_fmt" ∈ buildFfmpegArgs mp4Opts ↔
      resolveCodec mp4Opts.codec = "libx264" ∨
        resolveCodec mp4Opts.codec = "libx265") ∧
    ("-movflags" ∈ buildFfmpegArgs mp4Opts ↔
      resolveCodec mp4Opts.codec = "libx264") := by
  have hq : qualityToCrf mp4Opts.quality (resolveCodec mp4Opts.codec) = 13 := by
    have hrc : resolveCodec mp4Opts.codec = "libx264" := by decide
    rw [hrc]
    simp only [qualityToCrf, jsRound, mp4Opts]
    rw [if_neg (by decide : ¬ ("libx264" = "libvpx-vp9"))]
    norm_num
  exact C7_buildArgs mp4Opts
    (by decide) (by decide) (by decide) (by decide) (by decide) (by decide)
    (by rw [hq]; decide)

end GenartVideo
